import Mathlib

/-!
Verification development for the PyQt desktop application in `main.py`
(classes `LocalLLMWorker` and `ProcessGuiApp`).

The worker thread's `run` method is embedded as a pure trace function:
given the behaviour of the single HTTP POST (a status code with a parsed
JSON body, or an exception raised anywhere in the `try` block), it returns
the ordered list of observable events of that run (signal emissions and
the HTTP request itself).  Python string operations used by the code
(`str.replace` with all-occurrence, left-to-right, non-overlapping
semantics, and `str.strip`) are embedded as executable functions on
`List Char`.
-/

/-- Embedding of Python `str.replace` on lists, with explicit fuel so that
the definition is structurally recursive and computes by kernel reduction.
Scanning is left to right; on a match the scan continues after the matched
occurrence (the replacement is not rescanned).  An empty pattern gives the
identity, which agrees with Python's `s.replace("", "")` for the empty
replacement used in this file. -/
def replaceAllFuel {α : Type} [DecidableEq α] (old new : List α) : Nat → List α → List α
  | _, [] => []
  | 0, s => s
  | fuel+1, c :: rest =>
    if old <+: (c :: rest) ∧ old ≠ [] then
      new ++ replaceAllFuel old new fuel (rest.drop (old.length - 1))
    else
      c :: replaceAllFuel old new fuel rest

/-- Python `s.replace(old, new)` on `List α`. -/
def replaceAll {α : Type} [DecidableEq α] (old new s : List α) : List α :=
  replaceAllFuel old new s.length s

/-- Python `s.replace(old, new)` on `String`. -/
def pyReplace (old new s : String) : String :=
  String.mk (replaceAll old.data new.data s.data)

/-- Python `s.strip()` on `List Char`: drop whitespace from both ends. -/
def stripList (l : List Char) : List Char :=
  ((l.dropWhile Char.isWhitespace).reverse.dropWhile Char.isWhitespace).reverse

/-- Python `s.strip()` on `String`. -/
def pyStrip (s : String) : String :=
  String.mk (stripList s.data)

theorem replaceAllFuel_nil {α : Type} [DecidableEq α] (old new : List α) (f : Nat) :
    replaceAllFuel old new f [] = [] := by
  cases f <;> rfl

theorem replaceAllFuel_congr {α : Type} [DecidableEq α] (old new : List α) :
    ∀ (f1 : Nat) (s : List α) (f2 : Nat), s.length ≤ f1 → s.length ≤ f2 →
      replaceAllFuel old new f1 s = replaceAllFuel old new f2 s := by
  intro f1
  induction f1 with
  | zero =>
    intro s f2 h1 _
    have hs : s = [] := List.eq_nil_of_length_eq_zero (Nat.le_zero.mp h1)
    subst hs
    rw [replaceAllFuel_nil, replaceAllFuel_nil]
  | succ n ih =>
    intro s f2 h1 h2
    cases s with
    | nil => rw [replaceAllFuel_nil, replaceAllFuel_nil]
    | cons c rest =>
      cases f2 with
      | zero => simp at h2
      | succ m =>
        simp only [List.length_cons] at h1 h2
        show replaceAllFuel old new (n+1) (c :: rest) = replaceAllFuel old new (m+1) (c :: rest)
        simp only [replaceAllFuel]
        by_cases hc : old <+: (c :: rest) ∧ old ≠ []
        · rw [if_pos hc, if_pos hc]
          congr 1
          apply ih
          · rw [List.length_drop]; omega
          · rw [List.length_drop]; omega
        · rw [if_neg hc, if_neg hc]
          congr 1
          apply ih
          · omega
          · omega

theorem replaceAll_nil {α : Type} [DecidableEq α] (old new : List α) :
    replaceAll old new [] = [] := rfl

theorem replaceAll_cons_pos {α : Type} [DecidableEq α] (old new : List α) (c : α) (rest : List α)
    (h1 : old <+: (c :: rest)) (h2 : old ≠ []) :
    replaceAll old new (c :: rest) = new ++ replaceAll old new (rest.drop (old.length - 1)) := by
  show replaceAllFuel old new (rest.length + 1) (c :: rest) = _
  simp only [replaceAllFuel]
  rw [if_pos ⟨h1, h2⟩]
  congr 1
  apply replaceAllFuel_congr
  · rw [List.length_drop]; omega
  · exact Nat.le_refl _

theorem replaceAll_cons_neg {α : Type} [DecidableEq α] (old new : List α) (c : α) (rest : List α)
    (h : ¬ (old <+: (c :: rest) ∧ old ≠ [])) :
    replaceAll old new (c :: rest) = c :: replaceAll old new rest := by
  show replaceAllFuel old new (rest.length + 1) (c :: rest) = _
  simp only [replaceAllFuel]
  rw [if_neg h]
  rfl

theorem two_prefix_aux {α : Type} [DecidableEq α] (a : α) (rest : List α)
    (hnp : ¬ ([a, a] <+: rest)) :
    ¬ ([a, a] <+: replaceAll [a, a, a] [] rest) := by
  intro h2
  cases rest with
  | nil =>
    rw [replaceAll_nil] at h2
    simp at h2
  | cons d rest1 =>
    have hnp3 : ¬ ([a, a, a] <+: (d :: rest1)) := by
      intro h3
      exact hnp (List.IsPrefix.trans ⟨[a], rfl⟩ h3)
    rw [replaceAll_cons_neg _ _ _ _ (fun hx => hnp3 hx.1)] at h2
    rcases List.cons_prefix_cons.mp h2 with ⟨had, h1⟩
    subst had
    have hnp1 : ¬ ([a] <+: rest1) := by
      intro hr
      exact hnp (List.cons_prefix_cons.mpr ⟨rfl, hr⟩)
    cases rest1 with
    | nil =>
      rw [replaceAll_nil] at h1
      simp at h1
    | cons e rest2 =>
      have hnp3e : ¬ ([a, a, a] <+: (e :: rest2)) := by
        intro h3
        exact hnp1 (List.IsPrefix.trans ⟨[a, a], rfl⟩ h3)
      rw [replaceAll_cons_neg _ _ _ _ (fun hx => hnp3e hx.1)] at h1
      rcases List.cons_prefix_cons.mp h1 with ⟨hae, _⟩
      subst hae
      exact hnp1 (List.cons_prefix_cons.mpr ⟨rfl, List.nil_prefix⟩)

theorem no_triple_in_replaceAll_aux {α : Type} [DecidableEq α] (a : α) :
    ∀ (n : Nat) (l : List α), l.length ≤ n → ¬ ([a, a, a] <:+: replaceAll [a, a, a] [] l) := by
  intro n
  induction n with
  | zero =>
    intro l hl hinf
    have hlnil : l = [] := List.eq_nil_of_length_eq_zero (Nat.le_zero.mp hl)
    subst hlnil
    rw [replaceAll_nil] at hinf
    simp at hinf
  | succ n ih =>
    intro l hl hinf
    cases l with
    | nil =>
      rw [replaceAll_nil] at hinf
      simp at hinf
    | cons c rest =>
      simp only [List.length_cons] at hl
      by_cases hp : [a, a, a] <+: (c :: rest)
      · rw [replaceAll_cons_pos _ _ _ _ hp (by simp), List.nil_append] at hinf
        refine ih _ ?_ hinf
        rw [List.length_drop]
        simp only [List.length_cons, List.length_nil]
        omega
      · rw [replaceAll_cons_neg _ _ _ _ (fun hx => hp hx.1)] at hinf
        rcases List.infix_cons_iff.mp hinf with hpre | hinf2
        · rcases List.cons_prefix_cons.mp hpre with ⟨hac, h2⟩
          subst hac
          have hnp : ¬ ([a, a] <+: rest) := by
            intro hr
            exact hp (List.cons_prefix_cons.mpr ⟨rfl, hr⟩)
          exact two_prefix_aux a rest hnp h2
        · exact ih rest (by omega) hinf2

theorem no_triple_in_replaceAll {α : Type} [DecidableEq α] (a : α) (l : List α) :
    ¬ ([a, a, a] <:+: replaceAll [a, a, a] [] l) :=
  no_triple_in_replaceAll_aux a l.length l (Nat.le_refl _)

theorem replaceAll_eq_self_of_no_occ {α : Type} [DecidableEq α] (old new : List α)
    (l : List α) (h : ¬ (old <:+: l)) : replaceAll old new l = l := by
  induction l with
  | nil => exact replaceAll_nil old new
  | cons c rest ih =>
    rw [replaceAll_cons_neg _ _ _ _ (fun hx => h (List.IsPrefix.isInfix hx.1))]
    rw [ih (fun hx => h (List.infix_cons hx))]

theorem dropWhile_idem {α : Type} (p : α → Bool) (l : List α) :
    (l.dropWhile p).dropWhile p = l.dropWhile p := by
  induction l with
  | nil => rfl
  | cons c rest ih =>
    by_cases h : p c
    · rw [List.dropWhile_cons, if_pos h, ih]
    · rw [List.dropWhile_cons, if_neg h, List.dropWhile_cons, if_neg h]

theorem dropTrailing_le {α : Type} (p : α → Bool) (m : List α) :
    ((m.reverse.dropWhile p).reverse) <+: m := by
  have h := List.reverse_prefix.mpr (List.dropWhile_suffix (l := m.reverse) p)
  rwa [List.reverse_reverse] at h

theorem stripList_within (l : List Char) : stripList l <:+: l := by
  unfold stripList
  exact List.IsInfix.trans
    (List.IsPrefix.isInfix (dropTrailing_le Char.isWhitespace _))
    (List.IsSuffix.isInfix (List.dropWhile_suffix Char.isWhitespace))

theorem head_fails_of_dropWhile_eq_self {α : Type} (p : α → Bool) (c : α) (t : List α)
    (h : (c :: t).dropWhile p = c :: t) : p c = false := by
  by_contra hb
  have hpc : p c = true := by
    cases hq : p c
    · exact absurd hq hb
    · rfl
  rw [List.dropWhile_cons, if_pos hpc] at h
  have hlen := congrArg List.length h
  have hle := (List.dropWhile_suffix (l := t) p).sublist.length_le
  simp only [List.length_cons] at hlen
  omega

theorem dropWhile_of_dropTrailing {α : Type} (p : α → Bool) (m : List α)
    (hm : m.dropWhile p = m) :
    ((m.reverse.dropWhile p).reverse).dropWhile p = (m.reverse.dropWhile p).reverse := by
  rcases hx : (m.reverse.dropWhile p).reverse with _ | ⟨c, t⟩
  · rfl
  · have hpre : (c :: t) <+: m := hx ▸ dropTrailing_le p m
    rcases hpre with ⟨s, hs⟩
    have hmc : m = c :: (t ++ s) := by rw [← hs]; rfl
    have hc : p c = false := by
      apply head_fails_of_dropWhile_eq_self p c (t ++ s)
      rw [← hmc]
      exact hm
    rw [List.dropWhile_cons, if_neg (by simp [hc])]

theorem stripList_idem (l : List Char) : stripList (stripList l) = stripList l := by
  have h1 : (stripList l).dropWhile Char.isWhitespace = stripList l := by
    unfold stripList
    apply dropWhile_of_dropTrailing
    exact dropWhile_idem Char.isWhitespace l
  show ((((stripList l).dropWhile Char.isWhitespace).reverse.dropWhile
      Char.isWhitespace).reverse) = stripList l
  rw [h1]
  unfold stripList
  rw [List.reverse_reverse, dropWhile_idem]

/-- Character U+0060 (the backtick), written numerically. -/
def tick : Char := Char.ofNat 96

/-- Embedding of the response-cleaning expression in `LocalLLMWorker.run`:
`result.replace("```mermaid", "").replace("```", "").strip()`. -/
def cleanResponse (s : String) : String :=
  pyStrip (pyReplace "```" "" (pyReplace "```mermaid" "" s))

/-- The JSON body of the POST request built in `LocalLLMWorker.run`:
`{"model": "qwen2.5", "prompt": full_prompt, "stream": False}`. -/
structure RequestData where
  model : String
  prompt : String
  stream : Bool
deriving DecidableEq

/-- Observable events of one run of the worker thread, in order: the two
Qt signals (`result_ready`, `log_updated`) and the HTTP POST itself. -/
inductive Event where
  | result_ready (s : String)
  | log_updated (s : String)
  | httpPost (url : String) (data : RequestData)
deriving DecidableEq

/-- A parsed JSON object body, restricted to string-valued fields (the only
kind the worker reads). -/
abbrev JsonBody := List (String × String)

/-- Embedding of Python `dict.get(k)` on the parsed body: the value of the
first field named `k`, if any. -/
def jsonLookup (body : JsonBody) (k : String) : Option String :=
  (body.find? (fun p => p.1 == k)).map (fun p => p.2)

/-- Embedding of Python `dict.get(k, d)`. -/
def jsonGetD (body : JsonBody) (k d : String) : String :=
  (jsonLookup body k).getD d

/-- Behaviour of the single `requests.post` call (together with `.json()`
parsing): either an HTTP exchange yielding a status code and a parsed
body, or an exception raised anywhere inside the `try` block. -/
inductive HttpBehavior where
  | status (code : Nat) (body : JsonBody)
  | raise (msg : String)
deriving DecidableEq

/-- The state of a `LocalLLMWorker` as set up in `__init__`. -/
structure LocalLLMWorker where
  context_text : String
  prompt_type : String := "process_flow"
  api_url : String := "http://localhost:11434/api/generate"
deriving DecidableEq

/-- The system prompt chosen by `run` from `prompt_type`. -/
def systemPrompt (prompt_type : String) : String :=
  if prompt_type == "process_flow" then
    "你是一个资深工艺工程师。请根据用户提供的图纸信息，设计一套工艺流程。请务必只输出 Mermaid.js 的流程图代码 (graph TD...)，不要包含Markdown标记。确保节点包含具体工艺参数。"
  else
    "分析图纸信息并提取知识实体。"

/-- The f-string `f"{system_prompt}\n\n【图纸信息】:\n{self.context_text}"`. -/
def LocalLLMWorker.full_prompt (w : LocalLLMWorker) : String :=
  systemPrompt w.prompt_type ++ "\n\n【图纸信息】:\n" ++ w.context_text

/-- The `data` dictionary passed to `requests.post`. -/
def LocalLLMWorker.requestData (w : LocalLLMWorker) : RequestData :=
  { model := "qwen2.5", prompt := w.full_prompt, stream := false }

/-- Embedding of `LocalLLMWorker.run` as the ordered trace of its
observable events, parameterised by the behaviour of the HTTP call.
The method never propagates an exception: this function is total, and the
`raise` case (any exception in the `try` block) ends in the single
`log_updated` emission of the `except` handler. -/
def LocalLLMWorker.run (w : LocalLLMWorker) (b : HttpBehavior) : List Event :=
  Event.log_updated "正在请求本地大模型进行计算..." ::
  Event.httpPost w.api_url w.requestData ::
  match b with
  | HttpBehavior.raise msg => [Event.log_updated ("连接本地模型失败: " ++ msg)]
  | HttpBehavior.status code body =>
    if code = 200 then
      [Event.result_ready (cleanResponse (jsonGetD body "response" "")),
       Event.log_updated "计算完成，正在渲染..."]
    else
      [Event.log_updated ("错误: API 返回 " ++ toString code)]

/-- True of the two Qt signal emissions, false of the HTTP request. -/
def Event.isSignal : Event → Bool
  | Event.httpPost _ _ => false
  | _ => true

/-- True exactly of the HTTP request event. -/
def Event.isPost : Event → Bool
  | Event.httpPost _ _ => true
  | _ => false

/-- Events of a trace strictly after its first HTTP request: what the run
does once the blocking network call has completed. -/
def afterPost : List Event → List Event
  | [] => []
  | Event.httpPost _ _ :: rest => rest
  | _ :: rest => afterPost rest

/-- A sample worker, as built by `start_generation` from the stubbed OCR
text. -/
def sampleWorker : LocalLLMWorker :=
  { context_text := "零件名称: 传动轴\n材料: 45钢\n热处理: 调质\n精度要求: IT7\n特征: 两个键槽，一段螺纹。" }

theorem tick_triple : "```".data = [tick, tick, tick] := by decide

theorem tick_triple_le_mermaid : "```".data <+: "```mermaid".data :=
  ⟨"mermaid".data, by decide⟩

theorem cleanResponse_data (s : String) :
    (cleanResponse s).data =
      stripList (replaceAll "```".data [] (replaceAll "```mermaid".data [] s.data)) := rfl

/-- C8: the response-cleaning function of `LocalLLMWorker.run` — remove
every occurrence of the substring of three backticks followed by
`mermaid`, then every occurrence of three backticks, then strip leading
and trailing whitespace — is idempotent: cleaning an already cleaned
string changes nothing. -/
theorem cleanResponse_idempotent (s : String) :
    cleanResponse (cleanResponse s) = cleanResponse s := by
  have hA : ¬ ("```".data <:+: (cleanResponse s).data) := by
    rw [cleanResponse_data]
    intro h
    have h2 := List.IsInfix.trans h (stripList_within _)
    rw [tick_triple] at h2
    exact no_triple_in_replaceAll tick _ h2
  have hM : ¬ ("```mermaid".data <:+: (cleanResponse s).data) := by
    intro h
    exact hA (List.IsInfix.trans (List.IsPrefix.isInfix tick_triple_le_mermaid) h)
  have e1 : replaceAll "```mermaid".data [] (cleanResponse s).data = (cleanResponse s).data :=
    replaceAll_eq_self_of_no_occ _ _ _ hM
  have e2 : replaceAll "```".data [] (cleanResponse s).data = (cleanResponse s).data :=
    replaceAll_eq_self_of_no_occ _ _ _ hA
  have e3 : stripList (cleanResponse s).data = (cleanResponse s).data := by
    rw [cleanResponse_data]
    exact stripList_idem _
  show String.mk (stripList (replaceAll "```".data []
      (replaceAll "```mermaid".data [] (cleanResponse s).data))) = cleanResponse s
  rw [e1, e2, e3]

/-- C1: in every run whose HTTP behaviour is not a 200 response — a
non-200 status or an exception — no `result_ready` signal is emitted (so
the flowchart view receives no update), and a `log_updated` signal
carrying the corresponding error text is emitted: "错误: API 返回 {code}"
for a non-200 status, "连接本地模型失败: {e}" for an exception. -/
theorem run_error_logs_and_no_result (w : LocalLLMWorker) (b : HttpBehavior)
    (h : ∀ body, b ≠ HttpBehavior.status 200 body) :
    (∀ s, Event.result_ready s ∉ w.run b) ∧
    (match b with
     | HttpBehavior.status code _ =>
         Event.log_updated ("错误: API 返回 " ++ toString code) ∈ w.run b
     | HttpBehavior.raise msg =>
         Event.log_updated ("连接本地模型失败: " ++ msg) ∈ w.run b) := by
  cases b with
  | raise msg =>
    refine ⟨fun s hs => ?_, ?_⟩
    · simp [LocalLLMWorker.run] at hs
    · simp [LocalLLMWorker.run]
  | status code body =>
    have hne : code ≠ 200 := by
      intro hc
      exact h body (by rw [hc])
    refine ⟨fun s hs => ?_, ?_⟩
    · simp [LocalLLMWorker.run, hne] at hs
    · simp [LocalLLMWorker.run, hne]

theorem run_error_logs_and_no_result_witness :
    Event.result_ready "graph TD;" ∉ sampleWorker.run (HttpBehavior.status 404 []) ∧
    Event.log_updated ("错误: API 返回 " ++ toString 404) ∈
      sampleWorker.run (HttpBehavior.status 404 []) := by
  have h := run_error_logs_and_no_result sampleWorker (HttpBehavior.status 404 [])
    (by intro body hb; simp at hb)
  exact ⟨h.1 "graph TD;", h.2⟩

/-- C2: in every run with HTTP status 200 whose JSON body maps "response"
to the string r, the string emitted via `result_ready` equals r with
every occurrence of "```mermaid" removed, then every occurrence of "```"
removed, then leading and trailing whitespace stripped — and nothing else
is ever emitted via `result_ready` in that run. -/
theorem run_success_emits_cleaned (w : LocalLLMWorker) (body : JsonBody) (r : String)
    (h : jsonLookup body "response" = some r) :
    Event.result_ready (cleanResponse r) ∈ w.run (HttpBehavior.status 200 body) ∧
    ∀ s, Event.result_ready s ∈ w.run (HttpBehavior.status 200 body) →
      s = cleanResponse r := by
  have hg : jsonGetD body "response" "" = r := by
    rw [jsonGetD, h]
    rfl
  constructor
  · simp [LocalLLMWorker.run, hg]
  · intro s hs
    simp [LocalLLMWorker.run, hg] at hs
    exact hs

theorem run_success_emits_cleaned_witness :
    Event.result_ready (cleanResponse "```mermaid\ngraph TD;\nA-->B\n```") ∈
      sampleWorker.run
        (HttpBehavior.status 200 [("response", "```mermaid\ngraph TD;\nA-->B\n```")]) :=
  (run_success_emits_cleaned sampleWorker [("response", "```mermaid\ngraph TD;\nA-->B\n```")]
    "```mermaid\ngraph TD;\nA-->B\n```" (by rfl)).1

/-- C3: in every run with HTTP status 200, the thread emits exactly two
completion signals back to the UI thread: the trace after the HTTP POST
consists of exactly two events, both of them signal emissions. -/
theorem run_success_two_completion_signals (w : LocalLLMWorker) (body : JsonBody) :
    (afterPost (w.run (HttpBehavior.status 200 body))).countP Event.isSignal = 2 ∧
    (afterPost (w.run (HttpBehavior.status 200 body))).length = 2 := by
  constructor <;>
    simp [LocalLLMWorker.run, afterPost, Event.isSignal, List.countP_cons]

/-- C4: every run issues at most one HTTP POST request: whatever the
behaviour of the call (success, non-200 status, or exception), the trace
contains at most one `httpPost` event — no retry and no second request. -/
theorem run_at_most_one_post (w : LocalLLMWorker) (b : HttpBehavior) :
    (w.run b).countP Event.isPost ≤ 1 := by
  cases b with
  | raise msg => simp [LocalLLMWorker.run, Event.isPost, List.countP_cons]
  | status code body =>
    by_cases h : code = 200 <;>
      simp [LocalLLMWorker.run, Event.isPost, h, List.countP_cons]

/-- C5: every run posts a body whose "model" field is the string
"qwen2.5" and whose "prompt" field is the system prompt followed by
"\n\n【图纸信息】:\n" followed by the context text, so the prompt always
contains the context text as a suffix. -/
theorem run_request_payload (w : LocalLLMWorker) (b : HttpBehavior) :
    Event.httpPost w.api_url w.requestData ∈ w.run b ∧
    w.requestData.model = "qwen2.5" ∧
    w.requestData.prompt =
      systemPrompt w.prompt_type ++ "\n\n【图纸信息】:\n" ++ w.context_text ∧
    ∃ front, w.requestData.prompt = front ++ w.context_text := by
  refine ⟨?_, rfl, rfl, ⟨systemPrompt w.prompt_type ++ "\n\n【图纸信息】:\n", rfl⟩⟩
  cases b <;> simp [LocalLLMWorker.run]

/-- C6: the worker's `run` never propagates an exception — its embedding
is a total function on every HTTP behaviour — and a run in which the
request block raises any exception ends with exactly one further
emission, a plain-text `log_updated` whose text is "连接本地模型失败: "
followed by the exception's string form. -/
theorem run_exception_handled (w : LocalLLMWorker) (msg : String) :
    w.run (HttpBehavior.raise msg) =
      [Event.log_updated "正在请求本地大模型进行计算...",
       Event.httpPost w.api_url w.requestData,
       Event.log_updated ("连接本地模型失败: " ++ msg)] := rfl

/-- C7: for every worker whose context text is non-empty and every 200
response whose JSON body maps "response" to a string, the run emits
`result_ready` carrying a string: non-empty string in, string out. -/
theorem run_string_out (w : LocalLLMWorker) (body : JsonBody) (r : String)
    (hctx : w.context_text ≠ "") (hr : jsonLookup body "response" = some r) :
    ∃ s : String, Event.result_ready s ∈ w.run (HttpBehavior.status 200 body) :=
  ⟨cleanResponse (jsonGetD body "response" ""), by simp [LocalLLMWorker.run]⟩

theorem run_string_out_witness :
    ∃ s : String, Event.result_ready s ∈
      sampleWorker.run (HttpBehavior.status 200 [("response", "graph TD;")]) :=
  run_string_out sampleWorker [("response", "graph TD;")] "graph TD;" (by decide) (by rfl)

/-- C10: a 200 response whose JSON body has no "response" key does not
make the worker fail: `result_ready` is still emitted, and it carries the
empty string (the default "" is unchanged by cleaning). -/
theorem run_missing_response_emits_empty (w : LocalLLMWorker) (body : JsonBody)
    (h : jsonLookup body "response" = none) :
    Event.result_ready "" ∈ w.run (HttpBehavior.status 200 body) ∧
    ∀ s, Event.result_ready s ∈ w.run (HttpBehavior.status 200 body) → s = "" := by
  have hg : jsonGetD body "response" "" = "" := by
    rw [jsonGetD, h]
    rfl
  have hc : cleanResponse "" = "" := rfl
  constructor
  · simp [LocalLLMWorker.run, hg, hc]
  · intro s hs
    simp [LocalLLMWorker.run, hg, hc] at hs
    exact hs

theorem run_missing_response_emits_empty_witness :
    Event.result_ready "" ∈
      sampleWorker.run (HttpBehavior.status 200 [("prompt_eval_count", "42")]) :=
  (run_missing_response_emits_empty sampleWorker [("prompt_eval_count", "42")] rfl).1

/-- Embedding of the escaping in `ProcessGuiApp.update_flow_chart`:
`safe_code = mermaid_code.replace('\n', '\\n').replace('"', '\\"')`. -/
def safe_code (mermaid_code : String) : String :=
  pyReplace "\"" "\\\"" (pyReplace "\n" "\\n" mermaid_code)

/-- Value of a single-character JavaScript escape sequence `\c` in a
double-quoted string literal. -/
def jsEscChar (c : Char) : Char :=
  if c = 'n' then '\n'
  else if c = 't' then '\t'
  else if c = 'r' then '\r'
  else if c = 'b' then Char.ofNat 8
  else if c = 'f' then Char.ofNat 12
  else if c = 'v' then Char.ofNat 11
  else if c = '0' then Char.ofNat 0
  else c

/-- Interpretation of a character sequence as the body of a JavaScript
double-quoted string literal: a backslash escapes the following
character. -/
def jsUnescapeList : List Char → List Char
  | [] => []
  | [c] => if c = '\\' then [] else [c]
  | c :: d :: rest =>
    if c = '\\' then jsEscChar d :: jsUnescapeList rest
    else c :: jsUnescapeList (d :: rest)

/-- String form of the JavaScript string-literal interpretation. -/
def jsUnescape (s : String) : String :=
  String.mk (jsUnescapeList s.data)

/-- Per-character form of the `safe_code` escaping. -/
def escChar (c : Char) : List Char :=
  if c = '\n' then ['\\', 'n']
  else if c = '"' then ['\\', '"']
  else [c]

/-- Character-by-character escaping, shown below to agree with
`safe_code`. -/
def escapeList : List Char → List Char
  | [] => []
  | c :: rest => escChar c ++ escapeList rest

theorem replaceAll_single_cons {α : Type} [DecidableEq α] (x : α) (new : List α)
    (c : α) (rest : List α) :
    replaceAll [x] new (c :: rest) =
      (if c = x then new else [c]) ++ replaceAll [x] new rest := by
  by_cases h : c = x
  · subst h
    rw [replaceAll_cons_pos [c] new c rest ⟨rest, rfl⟩ (by simp), if_pos rfl]
    rfl
  · have hcond : ¬ ([x] <+: (c :: rest) ∧ [x] ≠ []) := by
      intro hx
      rcases hx.1 with ⟨t, ht⟩
      rw [List.singleton_append] at ht
      injection ht with h1 _
      exact h h1.symm
    rw [replaceAll_cons_neg _ _ _ _ hcond, if_neg h, List.singleton_append]

theorem replaceAll_single_append {α : Type} [DecidableEq α] (x : α) (new u v : List α) :
    replaceAll [x] new (u ++ v) = replaceAll [x] new u ++ replaceAll [x] new v := by
  induction u with
  | nil => rw [List.nil_append, replaceAll_nil, List.nil_append]
  | cons c u1 ih =>
    rw [List.cons_append, replaceAll_single_cons, replaceAll_single_cons, ih,
      List.append_assoc]

theorem safe_code_chain (l : List Char) :
    replaceAll ['"'] ['\\', '"'] (replaceAll ['\n'] ['\\', 'n'] l) = escapeList l := by
  induction l with
  | nil => rfl
  | cons c rest ih =>
    rw [replaceAll_single_cons, replaceAll_single_append, ih]
    by_cases h1 : c = '\n'
    · subst h1
      rw [if_pos rfl]
      have he : replaceAll ['"'] ['\\', '"'] ['\\', 'n'] = ['\\', 'n'] := by decide
      rw [he]
      simp [escapeList, escChar]
    · rw [if_neg h1]
      by_cases h2 : c = '"'
      · subst h2
        have he : replaceAll ['"'] ['\\', '"'] ['"'] = ['\\', '"'] := by decide
        rw [he]
        simp [escapeList, escChar]
      · have he : replaceAll ['"'] ['\\', '"'] [c] = [c] := by
          rw [replaceAll_single_cons, if_neg h2, replaceAll_nil, List.append_nil]
        rw [he]
        simp [escapeList, escChar, h1, h2]

theorem escChar_ne_nil (c : Char) : escChar c ≠ [] := by
  rw [escChar]
  by_cases h1 : c = '\n'
  · rw [if_pos h1]; simp
  · rw [if_neg h1]
    by_cases h2 : c = '"'
    · rw [if_pos h2]; simp
    · rw [if_neg h2]; simp

theorem jsUnescapeList_escape (l : List Char) (h : '\\' ∉ l) :
    jsUnescapeList (escapeList l) = l := by
  induction l with
  | nil => rfl
  | cons c rest ih =>
    have hc : c ≠ '\\' := by
      intro he
      exact h (he ▸ List.mem_cons_self c rest)
    have hrest : '\\' ∉ rest := fun hm => h (List.mem_cons_of_mem c hm)
    show jsUnescapeList (escChar c ++ escapeList rest) = c :: rest
    by_cases h1 : c = '\n'
    · subst h1
      show jsUnescapeList ('\\' :: 'n' :: escapeList rest) = '\n' :: rest
      rw [jsUnescapeList, if_pos rfl, ih hrest]
      rfl
    · by_cases h2 : c = '"'
      · subst h2
        show jsUnescapeList ('\\' :: '"' :: escapeList rest) = '"' :: rest
        rw [jsUnescapeList, if_pos rfl, ih hrest]
        rfl
      · have hes : escChar c = [c] := by rw [escChar, if_neg h1, if_neg h2]
        rw [hes, List.singleton_append]
        rcases hE : escapeList rest with _ | ⟨d, X⟩
        · have hr : rest = [] := by
            cases rest with
            | nil => rfl
            | cons r0 r1 =>
              exfalso
              have h0 : escChar r0 ++ escapeList r1 = [] := hE
              rcases List.append_eq_nil.mp h0 with ⟨he0, _⟩
              exact escChar_ne_nil r0 he0
          subst hr
          rw [jsUnescapeList, if_neg hc]
        · rw [jsUnescapeList, if_neg hc, ← hE, ih hrest]

/-- C9 counterexample: the claimed round trip fails on the program as it
stands: for the two-character string backslash-`n` (which contains no
newline and no quote), the escaping in `update_flow_chart` leaves it
unchanged, and interpreting it as a JavaScript string-literal body yields
a newline character, not the original two characters. -/
theorem update_flow_chart_roundtrip_cex :
    jsUnescape (safe_code "\\n") ≠ "\\n" := by decide

/-- C9 (amended): for every string containing no backslash, replacing
every newline with backslash-`n` and every double quote with
backslash-quote, then interpreting the result as the body of a JavaScript
double-quoted string literal, yields the original string again — the
`updateGraph` call receives exactly the mermaid code that was emitted. -/
theorem update_flow_chart_roundtrip (s : String) (h : '\\' ∉ s.data) :
    jsUnescape (safe_code s) = s := by
  show String.mk (jsUnescapeList (safe_code s).data) = s
  have hd : (safe_code s).data = escapeList s.data := safe_code_chain s.data
  rw [hd, jsUnescapeList_escape s.data h]

theorem update_flow_chart_roundtrip_witness :
    jsUnescape (safe_code "graph TD;\nA[\"开始\"] --> B") = "graph TD;\nA[\"开始\"] --> B" :=
  update_flow_chart_roundtrip "graph TD;\nA[\"开始\"] --> B" (by decide)
